import Mathlib

/-!
Verification of the request-governance layer of the RL Futures System backend:
rate limiting (`security.py`), input sanitization (`security.py`), metrics
collection (`metrics.py`) and health classification (`health.py`), shallowly
embedded in Lean 4.  Wall-clock timestamps are passed explicitly; `datetime`
fields that no property depends on are omitted.
-/

namespace RLFutures

/-! ## Rate limiter (`security.py`, class `RateLimiter`)

The Python state is a dict `ip -> list of int timestamps`; a missing key
behaves exactly like an empty list (`is_allowed` inserts `[]` before use),
so the state is embedded as a total function `String → List Int`. -/

structure RateLimiter where
  requests : String → List Int
  max_requests : Nat
  window_size : Int

/-- `RateLimiter.__init__`: empty table, 100 requests per 60-second window. -/
def rate_limiter : RateLimiter :=
  { requests := fun _ => [], max_requests := 100, window_size := 60 }

/-- `RateLimiter.is_allowed(ip)` with the ambient `int(time.time())` passed
explicitly as `current_time`.  Keeps timestamps `t > window_start`, rejects
without recording when the purged window already holds `max_requests`
entries, otherwise appends `current_time` and admits. -/
def is_allowed (rl : RateLimiter) (ip : String) (current_time : Int) :
    Bool × RateLimiter :=
  let window_start := current_time - rl.window_size
  let purged := (rl.requests ip).filter (fun t => decide (window_start < t))
  if rl.max_requests ≤ purged.length then
    (false, { rl with requests := fun k => if k = ip then purged else rl.requests k })
  else
    (true, { rl with requests := fun k => if k = ip then purged ++ [current_time] else rl.requests k })

/-- One run of the limiter over a list of `(ip, time)` calls; returns the
final state and the subsequence of calls that were admitted (returned true). -/
def runRL (rl : RateLimiter) : List (String × Int) → RateLimiter × List (String × Int)
  | [] => (rl, [])
  | (ip, t) :: rest =>
    let step := is_allowed rl ip t
    let tail := runRL step.2 rest
    (tail.1, if step.1 then (ip, t) :: tail.2 else tail.2)

/-- `c.2` lies in the trailing window `(T - W, T]`. -/
def inWindow (W T t : Int) : Bool :=
  decide (T - W < t) && decide (t ≤ T)

/-- `rate_limit(max_requests, window)` (`security.py:159-172`): the decorator
receives a per-route `(max_requests, window)` pair but never uses it — the
guard consults the single global `rate_limiter` state it is given, whatever
the declared pair is. -/
def rate_limit_guard (_declared_max : Nat) (_declared_window : Int)
    (global_state : RateLimiter) (ip : String) (now : Int) : Bool × RateLimiter :=
  is_allowed global_state ip now

/-- Run `n` consecutive requests through a route guarded by
`rate_limit(declared_max, declared_window)`, all from one client at one time. -/
def runGuarded (dm : Nat) (dw : Int) (ip : String) (now : Int) :
    Nat → RateLimiter → List Bool × RateLimiter
  | 0, st => ([], st)
  | n + 1, st =>
    let step := rate_limit_guard dm dw st ip now
    let tail := runGuarded dm dw ip now n step.2
    (step.1 :: tail.1, tail.2)

/-! ## Health monitor (`health.py`, class `HealthMonitor`)

Resource percentages and rates are embedded as rationals; the psutil sample
is passed in as an `Except`, `.error e` standing for the `except Exception`
path of `get_system_health`.  Timestamp/uptime/environment fields carry no
verified property and are omitted from the snapshot record. -/

/-- The request tally held in `HealthMonitor.metrics`. -/
structure HealthMetrics where
  requests_total : Nat
  requests_successful : Nat
  requests_failed : Nat
  average_response_time : ℚ

/-- One psutil resource sample: `cpu_percent`, `memory.percent`, `disk.percent`. -/
structure Sample where
  cpu : ℚ
  mem : ℚ
  disk : ℚ
deriving DecidableEq

/-- The part of the health-status dict the claims are about. -/
structure HealthSnapshot where
  status : String
  system : Option Sample
  success_rate : Option ℚ
  error : Option String
deriving DecidableEq

/-- `HealthMonitor._calculate_success_rate`. -/
def calculate_success_rate (m : HealthMetrics) : ℚ :=
  if m.requests_total = 0 then 1
  else (m.requests_successful : ℚ) / (m.requests_total : ℚ)

/-- `HealthMonitor._store_health_history`: append, then `pop(0)` once if the
length exceeds `max_history_size = 100`. -/
def store_health_history (history : List HealthSnapshot) (snap : HealthSnapshot) :
    List HealthSnapshot :=
  let h := history ++ [snap]
  if 100 < h.length then h.drop 1 else h

/-- The sequential status classification of `get_system_health`
(`health.py:64-71`): start at `healthy`, overwrite with `degraded` on the
first condition, then overwrite with `unhealthy` on the second. -/
def classify_status (cpu mem disk rate : ℚ) : String :=
  let s := "healthy"
  let s := if cpu > 90 ∨ mem > 90 ∨ disk > 90 ∨ rate < 95/100 then "degraded" else s
  if cpu > 95 ∨ mem > 95 ∨ disk > 95 ∨ rate < 9/10 then "unhealthy" else s

/-- `HealthMonitor.get_system_health`: on a successful sample builds the
snapshot, classifies it, stores it in the history and returns it; on a
sampling exception returns an `error` snapshot without touching the history. -/
def get_system_health (sample : Except String Sample) (m : HealthMetrics)
    (history : List HealthSnapshot) : HealthSnapshot × List HealthSnapshot :=
  match sample with
  | .ok s =>
    let rate := calculate_success_rate m
    let snap : HealthSnapshot :=
      { status := classify_status s.cpu s.mem s.disk rate
        system := some s
        success_rate := some rate
        error := none }
    (snap, store_health_history history snap)
  | .error e =>
    ({ status := "error", system := none, success_rate := none, error := some e },
     history)

/-! ## Metrics collector (`metrics.py`, class `MetricsCollector`)

`self.metrics` is a dict from string key to `MetricValue`; it is embedded as
`String → Option MetricValue`.  The `timestamp` field (always
`datetime.utcnow()`) carries no verified property and is omitted.  A label
dict is a `List (String × String)`; `labels=None` and `labels={}` behave
identically throughout `metrics.py` (`if not labels` / `labels or {}`), so
both are embedded as `[]`. -/

/-- `MetricValue` without its timestamp. -/
structure MetricValue where
  value : ℚ
  labels : List (String × String)
deriving DecidableEq

/-- The `self.metrics` dict. -/
def Metrics := String → Option MetricValue

/-- Point update of the metrics dict. -/
def Metrics.update (st : Metrics) (key : String) (mv : MetricValue) : Metrics :=
  fun k => if k = key then some mv else st k

/-- Python tuple order on `(key, value)` pairs, as used by `sorted(labels.items())`. -/
def pairLe (a b : String × String) : Bool :=
  decide (a.1 < b.1) || (decide (a.1 = b.1) && decide (a.2 ≤ b.2))

/-- Insertion into a sorted list of label pairs. -/
def insertPair (x : String × String) : List (String × String) → List (String × String)
  | [] => [x]
  | y :: rest => if pairLe x y then x :: y :: rest else y :: insertPair x rest

/-- `sorted(labels.items())`. -/
def sortPairs : List (String × String) → List (String × String)
  | [] => []
  | x :: rest => insertPair x (sortPairs rest)

/-- `"_".join(strings)`. -/
def joinUnderscore : List String → String
  | [] => ""
  | [s] => s
  | s :: rest => s ++ "_" ++ joinUnderscore rest

/-- `MetricsCollector._get_metric_key`: the bare name when there are no
labels, otherwise `f"{name}_{label_str}"` with `label_str` the underscore
join of `f"{k}_{v}"` over the sorted label pairs. -/
def get_metric_key (name : String) (labels : List (String × String)) : String :=
  if labels = [] then name
  else name ++ "_" ++ joinUnderscore ((sortPairs labels).map (fun kv => kv.1 ++ "_" ++ kv.2))

/-- `if key not in self.metrics: self.metrics[key] = MetricValue(0, now, labels)`. -/
def seedIfAbsent (st : Metrics) (key : String) (labels : List (String × String)) : Metrics :=
  match st key with
  | none => st.update key ⟨0, labels⟩
  | some _ => st

/-- `self.metrics[key].value += d` (key known to be present). -/
def bumpValue (st : Metrics) (key : String) (d : ℚ) : Metrics :=
  match st key with
  | none => st
  | some mv => st.update key { mv with value := mv.value + d }

/-- `MetricsCollector.increment_counter`. -/
def increment_counter (st : Metrics) (name : String)
    (labels : List (String × String)) (value : ℚ := 1) : Metrics :=
  let key := get_metric_key name labels
  bumpValue (seedIfAbsent st key labels) key value

/-- `MetricsCollector.set_gauge`. -/
def set_gauge (st : Metrics) (name : String) (value : ℚ)
    (labels : List (String × String)) : Metrics :=
  (st.update (get_metric_key name labels) ⟨value, labels⟩)

/-- `MetricsCollector.get_metric`. -/
def get_metric (st : Metrics) (name : String)
    (labels : List (String × String)) : Option MetricValue :=
  st (get_metric_key name labels)

/-- `dict[k] = v`: overwrite in place when the key exists, else append. -/
def dictInsert (l : List (String × String)) (k v : String) : List (String × String) :=
  if l.any (fun kv => decide (kv.1 = k)) then
    l.map (fun kv => if kv.1 = k then (k, v) else kv)
  else l ++ [(k, v)]

/-- The 8 fixed histogram boundaries with their Python `str(bucket)` renderings. -/
def histogramBuckets : List (ℚ × String) :=
  [(1/10, "0.1"), (1/2, "0.5"), (1, "1.0"), (2, "2.0"),
   (5, "5.0"), (10, "10.0"), (30, "30.0"), (60, "60.0")]

/-- One iteration of the bucket loop in `record_histogram`: build the bucket
labels, seed the bucket series at 0 if new, and increment it when
`value <= bucket`. -/
def histogramBucketStep (name : String) (value : ℚ)
    (labels : List (String × String)) (st : Metrics) (bucket : ℚ × String) : Metrics :=
  let bucket_labels := dictInsert labels "le" bucket.2
  let bucket_key := get_metric_key (name ++ "_bucket") bucket_labels
  let st := seedIfAbsent st bucket_key bucket_labels
  if value ≤ bucket.1 then bumpValue st bucket_key 1 else st

/-- `MetricsCollector.record_histogram`. -/
def record_histogram (st : Metrics) (name : String) (value : ℚ)
    (labels : List (String × String)) : Metrics :=
  let st := histogramBuckets.foldl (histogramBucketStep name value labels) st
  let sum_key := get_metric_key (name ++ "_sum") labels
  let count_key := get_metric_key (name ++ "_count") labels
  let st := seedIfAbsent st sum_key labels
  let st := seedIfAbsent st count_key labels
  let st := bumpValue st sum_key value
  bumpValue st count_key 1

/-- The empty metrics dict from `MetricsCollector.__init__`. -/
def metrics_collector : Metrics := fun _ => none

/-! ## Input validator (`security.py`, class `InputValidator`)

`sanitize_string` operates on the list of code points (`String.data`),
matching Python's code-point semantics of `len`, `re.sub`, `html.escape`
and `str.strip`. -/

/-- The double-quote character `"` (code point 34). -/
def quoteChar : Char := Char.ofNat 34

/-- The apostrophe character (code point 39). -/
def aposChar : Char := Char.ofNat 39

/-- The character class of `re.sub(r'[\x00-\x08\x0B\x0C\x0E-\x1F\x7F]', '', value)`. -/
def isCtrlChar (c : Char) : Bool :=
  (c.toNat ≤ 0x08) || c.toNat == 0x0B || c.toNat == 0x0C ||
  (0x0E ≤ c.toNat && c.toNat ≤ 0x1F) || c.toNat == 0x7F

/-- `html.escape(value)` (with its default `quote=True`) replaces each of
`&ampersand, <, >, double quote, apostrophe` by its entity; since the entity
bodies introduce no further escapable characters beyond their leading
ampersand, the sequential `str.replace` calls equal this per-character map. -/
def htmlEscapeChar (c : Char) : List Char :=
  if c = '&' then "&amp;".data
  else if c = '<' then "&lt;".data
  else if c = '>' then "&gt;".data
  else if c = quoteChar then "&quot;".data
  else if c = aposChar then "&#x27;".data
  else [c]

/-- The whitespace class stripped by Python `str.strip()` (`str.isspace`):
ASCII whitespace and the Unicode space/separator code points. -/
def pyIsSpace (c : Char) : Bool :=
  (0x09 ≤ c.toNat && c.toNat ≤ 0x0D) ||
  (0x1C ≤ c.toNat && c.toNat ≤ 0x1F) ||
  c.toNat == 0x20 || c.toNat == 0x85 || c.toNat == 0xA0 || c.toNat == 0x1680 ||
  (0x2000 ≤ c.toNat && c.toNat ≤ 0x200A) ||
  c.toNat == 0x2028 || c.toNat == 0x2029 || c.toNat == 0x202F ||
  c.toNat == 0x205F || c.toNat == 0x3000

/-- `value.strip()`: drop the leading whitespace run, then the trailing one. -/
def pyStrip (l : List Char) : List Char :=
  ((l.dropWhile pyIsSpace).reverse.dropWhile pyIsSpace).reverse

/-- `InputValidator.sanitize_string(value, max_length=1000)` for a string
argument (the `isinstance` guard is enforced by the type): length check,
control-character removal, HTML escaping, strip.  The Python `SecurityError`
is the `.error` message. -/
def sanitize_string (value : String) (max_length : Nat := 1000) : Except String String :=
  if max_length < value.length then
    .error ("Input too long. Maximum length: " ++ toString max_length)
  else
    .ok ⟨pyStrip ((value.data.filter (fun c => ! isCtrlChar c)).flatMap htmlEscapeChar)⟩

/-! ## Recursive sanitization (`security.py`, `sanitize_input`)

Python's heterogeneous nested data is embedded as a tagged variant; the
function recurses through dicts and lists, sanitizes strings, and returns
every other value unchanged.  A `SecurityError` raised by `sanitize_string`
propagates, hence the `Except`. -/

/-- A JSON-like Python value: the cases `sanitize_input` distinguishes
(`str`, `dict`, `list`) plus the pass-through scalars. -/
inductive Value where
  | str : String → Value
  | num : ℚ → Value
  | boolean : Bool → Value
  | null : Value
  | dict : List (String × Value) → Value
  | arr : List Value → Value

mutual

/-- `sanitize_input(data)`: sanitize strings, recurse through mappings and
sequences, return anything else unchanged. -/
def sanitize_input : Value → Except String Value
  | .str s => (sanitize_string s).map Value.str
  | .dict es => (sanitizeDictEntries es).map Value.dict
  | .arr xs => (sanitizeArrItems xs).map Value.arr
  | .num q => .ok (.num q)
  | .boolean b => .ok (.boolean b)
  | .null => .ok .null

/-- The dict comprehension `{k: sanitize_input(v) for k, v in data.items()}`. -/
def sanitizeDictEntries : List (String × Value) → Except String (List (String × Value))
  | [] => .ok []
  | (k, v) :: rest => do
    let v' ← sanitize_input v
    let rest' ← sanitizeDictEntries rest
    .ok ((k, v') :: rest')

/-- The list comprehension `[sanitize_input(item) for item in data]`. -/
def sanitizeArrItems : List Value → Except String (List Value)
  | [] => .ok []
  | v :: rest => do
    let v' ← sanitize_input v
    let rest' ← sanitizeArrItems rest
    .ok (v' :: rest')

end

/-! ## Spec-side definitions and proof helpers -/

/-- Written from the spec's words (§4.4): `unhealthy` if any 95-threshold
clause holds, else `degraded` if any 90-threshold clause holds, else
`healthy`; to be compared with the sequential `classify_status`. -/
def spec_classify (cpu mem disk rate : ℚ) : String :=
  if cpu > 95 ∨ mem > 95 ∨ disk > 95 ∨ rate < 9/10 then "unhealthy"
  else if cpu > 90 ∨ mem > 90 ∨ disk > 90 ∨ rate < 95/100 then "degraded"
  else "healthy"

/-- Written from the spec's words: `successRate = successful / total`,
`1.0` when `total = 0`. -/
def spec_success_rate (successful total : Nat) : ℚ :=
  if total = 0 then 1 else (successful : ℚ) / (total : ℚ)

/-- The numeric value of a series, 0 when the series does not exist yet
(`MetricValue(0, ...)` seeding). -/
def valueAt (st : Metrics) (key : String) : ℚ :=
  ((st key).map MetricValue.value).getD 0

/-- One of the five entity bodies emitted by `html.escape` follows. -/
def entityHead (l : List Char) : Bool :=
  "amp;".data.isPrefixOf l || "lt;".data.isPrefixOf l || "gt;".data.isPrefixOf l ||
  "quot;".data.isPrefixOf l || "#x27;".data.isPrefixOf l

/-- Every ampersand in the character list starts a complete HTML entity;
this is the formal reading of "no unescaped occurrence of the ampersand". -/
def ampOk : List Char → Bool
  | [] => true
  | c :: rest => (if c = '&' then entityHead rest else true) && ampOk rest

/-- The reserved characters that must not appear raw besides the ampersand. -/
def rawSpecials : List Char := ['<', '>', quoteChar, aposChar]

/-- The key under which `record_histogram` stores the bucket series for
boundary `p` when called without labels. -/
def bucketKey (name : String) (p : ℚ × String) : String :=
  get_metric_key (name ++ "_bucket") (dictInsert [] "le" p.2)

/-- A sequence nested to depth `n`: `[[...[null]...]]`. -/
def deepNest : Nat → Value
  | 0 => .null
  | n + 1 => .arr [deepNest n]

mutual

/-- Blank out every string leaf; two values with equal `stripStrings` images
have the same structure and the same non-string content. -/
def stripStrings : Value → Value
  | .str _ => .str ""
  | .dict es => .dict (stripStringsEntries es)
  | .arr xs => .arr (stripStringsItems xs)
  | .num q => .num q
  | .boolean b => .boolean b
  | .null => .null

/-- `stripStrings` over dict entries (keys untouched, as in the source). -/
def stripStringsEntries : List (String × Value) → List (String × Value)
  | [] => []
  | (k, v) :: rest => (k, stripStrings v) :: stripStringsEntries rest

/-- `stripStrings` over sequence items. -/
def stripStringsItems : List Value → List Value
  | [] => []
  | v :: rest => stripStrings v :: stripStringsItems rest

end

/-! ## Theorems -/

/-- C10: the metric key function is not injective: the distinct series
`("a", {"b": "c_d"})` and `("a_b", {"c": "d"})` share the key `"a_b_c_d"`,
so a counter increment or gauge write on the first is read back by
`get_metric` on the second. -/
theorem metric_key_not_injective :
    get_metric_key "a" [("b", "c_d")] = get_metric_key "a_b" [("c", "d")]
    ∧ ("a", [("b", "c_d")]) ≠ ("a_b", [("c", "d")])
    ∧ get_metric (increment_counter metrics_collector "a" [("b", "c_d")]) "a_b" [("c", "d")]
        = some ⟨1, [("b", "c_d")]⟩
    ∧ get_metric (set_gauge metrics_collector "a" 7 [("b", "c_d")]) "a_b" [("c", "d")]
        = some ⟨7, [("b", "c_d")]⟩ := by
  refine ⟨rfl, by decide, ?_, ?_⟩ <;>
  simp +decide [get_metric, increment_counter, set_gauge, metrics_collector, seedIfAbsent,
    bumpValue, Metrics.update, get_metric_key, sortPairs, insertPair, joinUnderscore]

/-- C2: on a successful resource sample, the snapshot status equals the
spec's three-way classification (`unhealthy` on a 95-threshold, else
`degraded` on a 90-threshold, else `healthy`) over the spec's success rate
(`successful / total`, `1` when `total = 0`), and that rate is recorded in
the snapshot. -/
theorem health_status_classification (s : Sample) (m : HealthMetrics)
    (h : List HealthSnapshot) :
    (get_system_health (.ok s) m h).1.status
      = spec_classify s.cpu s.mem s.disk
          (spec_success_rate m.requests_successful m.requests_total)
    ∧ (get_system_health (.ok s) m h).1.success_rate
      = some (spec_success_rate m.requests_successful m.requests_total) :=
  ⟨rfl, rfl⟩

/-- C4 fails on the code: with every resource at 50 and a recorded tally of
85 successes out of 100 (success rate 0.85), the snapshot status is
`unhealthy` (because 0.85 < 0.90), not the claimed `degraded`. -/
theorem health_claim_c4_counterexample :
    calculate_success_rate ⟨100, 85, 15, 0⟩ = 85/100
    ∧ (get_system_health (.ok ⟨50, 50, 50⟩) ⟨100, 85, 15, 0⟩ []).1.status = "unhealthy"
    ∧ (get_system_health (.ok ⟨50, 50, 50⟩) ⟨100, 85, 15, 0⟩ []).1.status ≠ "degraded" := by
  have hs : (get_system_health (.ok ⟨50, 50, 50⟩) ⟨100, 85, 15, 0⟩ []).1.status
      = "unhealthy" := by
    norm_num [get_system_health, classify_status, calculate_success_rate]
  refine ⟨by norm_num [calculate_success_rate], hs, by rw [hs]; decide⟩

/-- C4 amended: when all resource samples are under 90, a recorded success
rate of 0.85 yields status `unhealthy` (0.85 < 0.90), and a rate of 0.5
also yields `unhealthy`. -/
theorem health_low_success_rate_unhealthy (s : Sample) (m m' : HealthMetrics)
    (h h' : List HealthSnapshot)
    (_hc : s.cpu < 90) (_hm : s.mem < 90) (_hd : s.disk < 90)
    (h85 : calculate_success_rate m = 85/100)
    (h50 : calculate_success_rate m' = 1/2) :
    (get_system_health (.ok s) m h).1.status = "unhealthy"
    ∧ (get_system_health (.ok s) m' h').1.status = "unhealthy" := by
  have r85 : calculate_success_rate m < 9/10 := by rw [h85]; norm_num
  have r50 : calculate_success_rate m' < 9/10 := by rw [h50]; norm_num
  constructor
  · show (if s.cpu > 95 ∨ s.mem > 95 ∨ s.disk > 95 ∨ calculate_success_rate m < 9/10
        then "unhealthy"
        else if s.cpu > 90 ∨ s.mem > 90 ∨ s.disk > 90 ∨ calculate_success_rate m < 95/100
        then "degraded" else "healthy") = "unhealthy"
    rw [if_pos (Or.inr (Or.inr (Or.inr r85)))]
  · show (if s.cpu > 95 ∨ s.mem > 95 ∨ s.disk > 95 ∨ calculate_success_rate m' < 9/10
        then "unhealthy"
        else if s.cpu > 90 ∨ s.mem > 90 ∨ s.disk > 90 ∨ calculate_success_rate m' < 95/100
        then "degraded" else "healthy") = "unhealthy"
    rw [if_pos (Or.inr (Or.inr (Or.inr r50)))]

/-- Witness for `health_low_success_rate_unhealthy` at samples of 50 and the
tallies 85/100 and 1/2. -/
theorem health_low_success_rate_unhealthy_witness :
    ((50 : ℚ) < 90)
    ∧ calculate_success_rate ⟨100, 85, 15, 0⟩ = 85/100
    ∧ calculate_success_rate ⟨2, 1, 1, 0⟩ = 1/2
    ∧ (get_system_health (.ok ⟨50, 50, 50⟩) ⟨100, 85, 15, 0⟩ []).1.status = "unhealthy"
    ∧ (get_system_health (.ok ⟨50, 50, 50⟩) ⟨2, 1, 1, 0⟩ []).1.status = "unhealthy" := by
  have h85 : calculate_success_rate ⟨100, 85, 15, 0⟩ = 85/100 := by
    norm_num [calculate_success_rate]
  have h50 : calculate_success_rate ⟨2, 1, 1, 0⟩ = 1/2 := by
    norm_num [calculate_success_rate]
  have main := health_low_success_rate_unhealthy ⟨50, 50, 50⟩ ⟨100, 85, 15, 0⟩ ⟨2, 1, 1, 0⟩
    [] [] (by norm_num) (by norm_num) (by norm_num) h85 h50
  exact ⟨by norm_num, h85, h50, main.1, main.2⟩

/-- C7: a sampling failure never propagates — `get_system_health` is a total
function that converts the exception into a snapshot with status `error`
carrying the failure reason. -/
theorem health_error_snapshot (e : String) (m : HealthMetrics)
    (h : List HealthSnapshot) :
    (get_system_health (.error e) m h).1.status = "error"
    ∧ (get_system_health (.error e) m h).1.error = some e :=
  ⟨rfl, rfl⟩

/-- C8 fails on the code: a health check whose sampling fails produces an
`error` snapshot yet leaves the history untouched — the snapshot is not
appended, contradicting "whatever its status". -/
theorem health_history_claim_counterexample :
    (get_system_health (.error "boom") ⟨0, 0, 0, 0⟩ []).1.status = "error"
    ∧ (get_system_health (.error "boom") ⟨0, 0, 0, 0⟩ []).2 = [] :=
  ⟨rfl, rfl⟩

/-- C8 amended: every successfully-sampled health check appends its snapshot
to the history, the history never exceeds capacity 100, a 101st append
evicts the oldest entry first (FIFO), and error snapshots are not appended. -/
theorem health_history_fifo (s : Sample) (m : HealthMetrics) (e : String)
    (h : List HealthSnapshot) (hlen : h.length ≤ 100) :
    (get_system_health (.ok s) m h).2.length ≤ 100
    ∧ (h.length < 100 →
        (get_system_health (.ok s) m h).2 = h ++ [(get_system_health (.ok s) m h).1])
    ∧ (h.length = 100 →
        (get_system_health (.ok s) m h).2
          = (h ++ [(get_system_health (.ok s) m h).1]).drop 1)
    ∧ (get_system_health (.error e) m h).2 = h := by
  have step : ∀ snap : HealthSnapshot,
      store_health_history h snap
        = if 100 < (h ++ [snap]).length then (h ++ [snap]).drop 1 else h ++ [snap] :=
    fun _ => rfl
  refine ⟨?_, ?_, ?_, rfl⟩
  · show (store_health_history h _).length ≤ 100
    rw [step]
    split_ifs with hc
    · simp only [List.length_drop, List.length_append, List.length_singleton]
      omega
    · simp only [List.length_append, List.length_singleton] at hc ⊢
      omega
  · intro hlt
    have h2 : (get_system_health (.ok s) m h).2
        = store_health_history h (get_system_health (.ok s) m h).1 := rfl
    rw [h2, step, if_neg]
    simp only [List.length_append, List.length_singleton]
    omega
  · intro heq
    have h2 : (get_system_health (.ok s) m h).2
        = store_health_history h (get_system_health (.ok s) m h).1 := rfl
    rw [h2, step, if_pos]
    simp only [List.length_append, List.length_singleton]
    omega

/-- Witness for `health_history_fifo` at the empty history. -/
theorem health_history_fifo_witness :
    (([] : List HealthSnapshot).length ≤ 100)
    ∧ (get_system_health (.ok ⟨1, 2, 3⟩) ⟨0, 0, 0, 0⟩ []).2.length ≤ 100 :=
  ⟨by decide,
   (health_history_fifo ⟨1, 2, 3⟩ ⟨0, 0, 0, 0⟩ "x" [] (by decide)).1⟩

/-- C5 is violated by the code: the `rate_limit` decorator discards its
declared `(max_requests, window)` pair and always consults the single
global limiter (100 requests / 60 s), so a route declared as 10/60 still
admits 11 consecutive requests from one client inside one window. -/
theorem rate_limit_global_not_per_route :
    (∀ (dm : Nat) (dw : Int) (st : RateLimiter) (ip : String) (now : Int),
        rate_limit_guard dm dw st ip now = is_allowed st ip now)
    ∧ (runGuarded 10 60 "127.0.0.1" 0 11 rate_limiter).1 = List.replicate 11 true := by
  exact ⟨fun _ _ _ _ _ => rfl, by decide⟩

/-- C3 fails on the code: recording value 45 increments the 60.0 bucket
(45 ≤ 60), so a bucket counter does change, contrary to "increments zero
bucket counters". -/
theorem histogram_45_counterexample :
    get_metric (record_histogram metrics_collector "m" 45 []) "m_bucket" [("le", "60.0")]
      = some ⟨1, [("le", "60.0")]⟩ := by
  have h1 : ¬ ((45:ℚ) ≤ 10⁻¹) := by norm_num
  have h2 : ¬ ((45:ℚ) ≤ 2⁻¹) := by norm_num
  have h3 : ¬ ((45:ℚ) ≤ 1) := by norm_num
  have h4 : ¬ ((45:ℚ) ≤ 2) := by norm_num
  have h5 : ¬ ((45:ℚ) ≤ 5) := by norm_num
  have h6 : ¬ ((45:ℚ) ≤ 10) := by norm_num
  have h7 : ¬ ((45:ℚ) ≤ 30) := by norm_num
  have h8 : (45:ℚ) ≤ 60 := by norm_num
  simp +decide [get_metric, record_histogram, metrics_collector, seedIfAbsent, bumpValue,
    Metrics.update, get_metric_key, sortPairs, insertPair, joinUnderscore, histogramBuckets,
    histogramBucketStep, dictInsert, h1, h2, h3, h4, h5, h6, h7, h8]

/-! ### Helper lemmas for the histogram semantics -/

lemma string_data_append (a b : String) : (a ++ b).data = a.data ++ b.data := by
  cases a; cases b; rfl

lemma string_data_inj {a b : String} (h : a.data = b.data) : a = b := by
  cases a; cases b; exact congrArg String.mk h

lemma string_append_assoc (a b c : String) : (a ++ b) ++ c = a ++ (b ++ c) := by
  apply string_data_inj
  simp [string_data_append, List.append_assoc]

lemma append_ne (n : String) {a b : String} (h : a ≠ b) : n ++ a ≠ n ++ b := by
  intro he
  apply h
  apply string_data_inj
  have hd := congrArg String.data he
  rw [string_data_append, string_data_append] at hd
  exact List.append_cancel_left hd

lemma assoc3 (a b c d : String) : ((a ++ b) ++ c) ++ d = a ++ ((b ++ c) ++ d) := by
  rw [string_append_assoc, string_append_assoc, ← string_append_assoc b c d]

lemma bucketKey_eq (name : String) (p : ℚ × String) :
    bucketKey name p = name ++ (("_bucket" ++ "_") ++ (("le" ++ "_") ++ p.2)) := by
  show ((name ++ "_bucket") ++ "_") ++ (("le" ++ "_") ++ p.2) = _
  exact assoc3 name "_bucket" "_" (("le" ++ "_") ++ p.2)

lemma valueAt_congr {st st' : Metrics} (k : String) (h : st k = st' k) :
    valueAt st k = valueAt st' k := by
  unfold valueAt; rw [h]

lemma seed_frame (st : Metrics) (k : String) (l : List (String × String)) {x : String}
    (h : x ≠ k) : seedIfAbsent st k l x = st x := by
  cases hs : st k <;> simp [seedIfAbsent, Metrics.update, hs, h]

lemma bump_frame (st : Metrics) (k : String) (d : ℚ) {x : String}
    (h : x ≠ k) : bumpValue st k d x = st x := by
  cases hs : st k <;> simp [bumpValue, Metrics.update, hs, h]

lemma valueAt_seed (st : Metrics) (k : String) (l : List (String × String)) :
    valueAt (seedIfAbsent st k l) k = valueAt st k := by
  cases hs : st k <;> simp [valueAt, seedIfAbsent, Metrics.update, hs]

lemma valueAt_seed_bump (st : Metrics) (k : String) (l : List (String × String)) (d : ℚ) :
    valueAt (bumpValue (seedIfAbsent st k l) k d) k = valueAt st k + d := by
  cases hs : st k <;> simp [valueAt, bumpValue, seedIfAbsent, Metrics.update, hs]

lemma phase2_frame (st : Metrics) (ks kc : String) (l : List (String × String)) (v : ℚ)
    {x : String} (hxs : x ≠ ks) (hxc : x ≠ kc) :
    (bumpValue (bumpValue (seedIfAbsent (seedIfAbsent st ks l) kc l) ks v) kc 1) x = st x := by
  rw [bump_frame _ _ _ hxc, bump_frame _ _ _ hxs, seed_frame _ _ _ hxc, seed_frame _ _ _ hxs]

lemma seed_isSome (st : Metrics) (k : String) (l : List (String × String)) :
    ((seedIfAbsent st k l) k).isSome := by
  cases hs : st k <;> simp [seedIfAbsent, Metrics.update, hs]

lemma valueAt_bump_of_some (st : Metrics) (k : String) (d : ℚ) (h : (st k).isSome) :
    valueAt (bumpValue st k d) k = valueAt st k + d := by
  cases hs : st k with
  | none => rw [hs] at h; simp at h
  | some mv => simp [valueAt, bumpValue, Metrics.update, hs]

lemma valueAt_phase2 (st : Metrics) (ks kc : String) (l : List (String × String)) (v : ℚ)
    (hne : ks ≠ kc) :
    valueAt (bumpValue (bumpValue (seedIfAbsent (seedIfAbsent st ks l) kc l) ks v) kc 1) ks
      = valueAt st ks + v
    ∧ valueAt (bumpValue (bumpValue (seedIfAbsent (seedIfAbsent st ks l) kc l) ks v) kc 1) kc
      = valueAt st kc + 1 := by
  constructor
  · rw [valueAt_congr ks (bump_frame _ _ _ hne),
      valueAt_bump_of_some _ _ _
        (by rw [seed_frame _ _ _ hne]; exact seed_isSome st ks l),
      valueAt_congr ks (seed_frame _ _ _ hne), valueAt_seed]
  · rw [valueAt_bump_of_some _ _ _
        (by rw [bump_frame _ _ _ (Ne.symm hne)]; exact seed_isSome _ kc l),
      valueAt_congr kc (bump_frame _ _ _ (Ne.symm hne)), valueAt_seed,
      valueAt_congr kc (seed_frame _ _ _ (Ne.symm hne))]

lemma bucketStep_self (name : String) (v : ℚ) (st : Metrics) (b : ℚ × String) :
    valueAt (histogramBucketStep name v [] st b) (bucketKey name b)
      = valueAt st (bucketKey name b) + (if v ≤ b.1 then 1 else 0) := by
  show valueAt (if v ≤ b.1
      then bumpValue (seedIfAbsent st (bucketKey name b) (dictInsert [] "le" b.2))
        (bucketKey name b) 1
      else seedIfAbsent st (bucketKey name b) (dictInsert [] "le" b.2))
      (bucketKey name b) = _
  split_ifs with hv
  · exact valueAt_seed_bump st _ _ 1
  · rw [add_zero]; exact valueAt_seed st _ _

lemma bucketStep_frame (name : String) (v : ℚ) (st : Metrics) (b : ℚ × String) {k : String}
    (h : k ≠ bucketKey name b) :
    histogramBucketStep name v [] st b k = st k := by
  show (if v ≤ b.1
      then bumpValue (seedIfAbsent st (bucketKey name b) (dictInsert [] "le" b.2))
        (bucketKey name b) 1
      else seedIfAbsent st (bucketKey name b) (dictInsert [] "le" b.2)) k = st k
  split_ifs with hv
  · rw [bump_frame _ _ _ h, seed_frame _ _ _ h]
  · rw [seed_frame _ _ _ h]

lemma fold_frame (name : String) (v : ℚ) :
    ∀ (bl : List (ℚ × String)) (st : Metrics) (k : String),
      (∀ p ∈ bl, k ≠ bucketKey name p) →
      List.foldl (histogramBucketStep name v []) st bl k = st k := by
  intro bl
  induction bl with
  | nil => intro st k _; rfl
  | cons b bl ih =>
    intro st k h
    rw [List.foldl_cons, ih _ _ (fun p hp => h p (List.mem_cons_of_mem _ hp))]
    exact bucketStep_frame name v st b (h b (List.mem_cons_self _ _))

lemma fold_self (name : String) (v : ℚ) :
    ∀ (bl : List (ℚ × String)) (st : Metrics) (p : ℚ × String),
      p ∈ bl →
      List.Pairwise (fun a b => bucketKey name a ≠ bucketKey name b) bl →
      valueAt (List.foldl (histogramBucketStep name v []) st bl) (bucketKey name p)
        = valueAt st (bucketKey name p) + (if v ≤ p.1 then 1 else 0) := by
  intro bl
  induction bl with
  | nil => intro st p hp _; exact absurd hp (List.not_mem_nil p)
  | cons b bl ih =>
    intro st p hp hpw
    rw [List.foldl_cons]
    rcases List.mem_cons.mp hp with rfl | hmem
    · rw [valueAt_congr _ (fold_frame name v bl _ _ (List.pairwise_cons.mp hpw).1)]
      exact bucketStep_self name v st p
    · rw [ih _ _ hmem (List.pairwise_cons.mp hpw).2]
      rw [valueAt_congr _ (bucketStep_frame name v st b
        (Ne.symm ((List.pairwise_cons.mp hpw).1 p hmem)))]

lemma record_histogram_valueAt (st : Metrics) (name : String) (v : ℚ) :
    (∀ p ∈ histogramBuckets,
      valueAt (record_histogram st name v []) (bucketKey name p)
        = valueAt st (bucketKey name p) + (if v ≤ p.1 then 1 else 0))
    ∧ valueAt (record_histogram st name v []) (get_metric_key (name ++ "_sum") [])
        = valueAt st (get_metric_key (name ++ "_sum") []) + v
    ∧ valueAt (record_histogram st name v []) (get_metric_key (name ++ "_count") [])
        = valueAt st (get_metric_key (name ++ "_count") []) + 1 := by
  have hrh : record_histogram st name v []
      = bumpValue (bumpValue (seedIfAbsent (seedIfAbsent
          (List.foldl (histogramBucketStep name v []) st histogramBuckets)
          (get_metric_key (name ++ "_sum") []) [])
          (get_metric_key (name ++ "_count") []) [])
          (get_metric_key (name ++ "_sum") []) v)
          (get_metric_key (name ++ "_count") []) 1 := rfl
  have hsc : get_metric_key (name ++ "_sum") [] ≠ get_metric_key (name ++ "_count") [] :=
    append_ne name (by decide)
  have hpw : List.Pairwise (fun a b => bucketKey name a ≠ bucketKey name b)
      histogramBuckets := by
    have h2 : List.Pairwise (fun a b : ℚ × String => a.2 ≠ b.2) histogramBuckets := by
      decide
    exact h2.imp (fun h => by
      rw [bucketKey_eq, bucketKey_eq]
      exact append_ne name (append_ne _ (append_ne _ h)))
  have hbs : ∀ p ∈ histogramBuckets,
      bucketKey name p ≠ get_metric_key (name ++ "_sum") [] := by
    intro p hp
    fin_cases hp <;> (rw [bucketKey_eq]; exact append_ne name (by decide))
  have hbc : ∀ p ∈ histogramBuckets,
      bucketKey name p ≠ get_metric_key (name ++ "_count") [] := by
    intro p hp
    fin_cases hp <;> (rw [bucketKey_eq]; exact append_ne name (by decide))
  refine ⟨?_, ?_, ?_⟩
  · intro p hp
    rw [hrh, valueAt_congr _ (phase2_frame _ _ _ _ _ (hbs p hp) (hbc p hp))]
    exact fold_self name v histogramBuckets st p hp hpw
  · rw [hrh, (valueAt_phase2 _ _ _ [] v hsc).1,
      valueAt_congr _ (fold_frame name v histogramBuckets st _
        (fun p hp => (hbs p hp).symm))]
  · rw [hrh, (valueAt_phase2 _ _ _ [] v hsc).2,
      valueAt_congr _ (fold_frame name v histogramBuckets st _
        (fun p hp => (hbc p hp).symm))]

/-- C3 amended: recording 0.05 increments the cumulative count of all 8
buckets as well as `_count`, and adds 0.05 to `_sum`; recording 45
increments exactly one bucket — the 60.0 bucket (45 ≤ 60) — leaves the
other seven bucket counts unchanged, and still increments `_count` and adds
45 to `_sum`. -/
theorem record_histogram_bucket_semantics (st : Metrics) (name : String) :
    (∀ p ∈ histogramBuckets,
      valueAt (record_histogram st name (1/20) []) (bucketKey name p)
        = valueAt st (bucketKey name p) + 1)
    ∧ valueAt (record_histogram st name (1/20) []) (get_metric_key (name ++ "_sum") [])
        = valueAt st (get_metric_key (name ++ "_sum") []) + 1/20
    ∧ valueAt (record_histogram st name (1/20) []) (get_metric_key (name ++ "_count") [])
        = valueAt st (get_metric_key (name ++ "_count") []) + 1
    ∧ valueAt (record_histogram st name 45 []) (bucketKey name (60, "60.0"))
        = valueAt st (bucketKey name (60, "60.0")) + 1
    ∧ (∀ p ∈ histogramBuckets, p.2 ≠ "60.0" →
        valueAt (record_histogram st name 45 []) (bucketKey name p)
          = valueAt st (bucketKey name p))
    ∧ valueAt (record_histogram st name 45 []) (get_metric_key (name ++ "_sum") [])
        = valueAt st (get_metric_key (name ++ "_sum") []) + 45
    ∧ valueAt (record_histogram st name 45 []) (get_metric_key (name ++ "_count") [])
        = valueAt st (get_metric_key (name ++ "_count") []) + 1 := by
  refine ⟨?_, (record_histogram_valueAt st name (1/20)).2.1,
    (record_histogram_valueAt st name (1/20)).2.2, ?_, ?_,
    (record_histogram_valueAt st name 45).2.1,
    (record_histogram_valueAt st name 45).2.2⟩
  · intro p hp
    have h := (record_histogram_valueAt st name (1/20)).1 p hp
    have hif : (if (1/20 : ℚ) ≤ p.1 then (1 : ℚ) else 0) = 1 := by
      fin_cases hp <;> norm_num
    rw [hif] at h
    exact h
  · have h := (record_histogram_valueAt st name 45).1 (60, "60.0")
      (by simp [histogramBuckets])
    rw [if_pos (by norm_num)] at h
    exact h
  · intro p hp hne
    have h := (record_histogram_valueAt st name 45).1 p hp
    have hif : (if (45 : ℚ) ≤ p.1 then (1 : ℚ) else 0) = 0 := by
      fin_cases hp <;> first
        | exact absurd rfl hne
        | norm_num
    rw [hif, add_zero] at h
    exact h

/-- Witness for `record_histogram_bucket_semantics`: the 0.1 bucket of an
unlabeled histogram on the empty store ends at 1 after recording 0.05. -/
theorem record_histogram_bucket_semantics_witness :
    ((1/10, "0.1") ∈ histogramBuckets)
    ∧ valueAt (record_histogram metrics_collector "m" (1/20) []) (bucketKey "m" (1/10, "0.1"))
        = valueAt metrics_collector (bucketKey "m" (1/10, "0.1")) + 1 :=
  ⟨by simp [histogramBuckets],
   (record_histogram_bucket_semantics metrics_collector "m").1 (1/10, "0.1")
     (by simp [histogramBuckets])⟩

/-! ### Helper lemmas for the rate limiter -/

lemma is_allowed_reject (rl : RateLimiter) (ip : String) (t : Int)
    (h : rl.max_requests
        ≤ ((rl.requests ip).filter (fun x => decide (t - rl.window_size < x))).length) :
    is_allowed rl ip t
      = (false, { rl with requests := fun k =>
          if k = ip then (rl.requests ip).filter (fun x => decide (t - rl.window_size < x))
          else rl.requests k }) := by
  dsimp only [is_allowed]
  rw [if_pos h]

lemma is_allowed_accept (rl : RateLimiter) (ip : String) (t : Int)
    (h : ((rl.requests ip).filter (fun x => decide (t - rl.window_size < x))).length
        < rl.max_requests) :
    is_allowed rl ip t
      = (true, { rl with requests := fun k =>
          if k = ip
          then (rl.requests ip).filter (fun x => decide (t - rl.window_size < x)) ++ [t]
          else rl.requests k }) := by
  dsimp only [is_allowed]
  rw [if_neg (Nat.not_le.mpr h)]

lemma countP_filter_le {α : Type} (p q : α → Bool) (l : List α) :
    (l.filter q).countP p ≤ l.countP p := by
  induction l with
  | nil => exact Nat.le_refl 0
  | cons a l ihl =>
    rw [List.countP_cons]
    by_cases hq : q a
    · rw [List.filter_cons_of_pos hq, List.countP_cons]
      split_ifs <;> omega
    · rw [List.filter_cons_of_neg (by simpa using hq)]
      split_ifs <;> omega

lemma countP_filter_eq {α : Type} (p q : α → Bool) (l : List α)
    (h : ∀ x, p x = true → q x = true) :
    l.countP p = (l.filter q).countP p := by
  induction l with
  | nil => rfl
  | cons a l ihl =>
    rw [List.countP_cons]
    by_cases hq : q a
    · rw [List.filter_cons_of_pos hq, List.countP_cons, ihl]
    · have hp : ¬ p a = true := fun hpa => hq (h a hpa)
      rw [List.filter_cons_of_neg (by simpa using hq), ← ihl]
      simp [hp]

lemma mem_runRL : ∀ (calls : List (String × Int)) (rl : RateLimiter) (c : String × Int),
    c ∈ (runRL rl calls).2 → c ∈ calls := by
  intro calls
  induction calls with
  | nil => intro rl c hc; simp [runRL] at hc
  | cons d rest ihl =>
    obtain ⟨ip, t⟩ := d
    intro rl c hc
    have hrun : (runRL rl ((ip, t) :: rest)).2
        = (if (is_allowed rl ip t).1 then (ip, t) :: (runRL (is_allowed rl ip t).2 rest).2
           else (runRL (is_allowed rl ip t).2 rest).2) := rfl
    rw [hrun] at hc
    split_ifs at hc with hb
    · rcases List.mem_cons.mp hc with rfl | hm
      · exact List.mem_cons_self _ _
      · exact List.mem_cons_of_mem _ (ihl _ _ hm)
    · exact List.mem_cons_of_mem _ (ihl _ _ hc)

/-- Inductive core for the sliding-window bound: along any run with
nondecreasing call times, the admitted calls for key `k` falling inside any
one trailing window, plus the stored in-window timestamps for `k`, never
exceed `max_requests`, provided the stored lists respect the bound. -/
lemma runRL_window_bound :
    ∀ (calls : List (String × Int)) (reqs : String → List Int) (M : Nat) (W : Int),
      List.Pairwise (fun a b : String × Int => a.2 ≤ b.2) calls →
      (∀ (k : String) (T : Int), (reqs k).countP (inWindow W T) ≤ M) →
      ∀ (k : String) (T : Int),
        ((runRL ⟨reqs, M, W⟩ calls).2.countP
            (fun c => decide (c.1 = k) && inWindow W T c.2))
          + (reqs k).countP (inWindow W T) ≤ M := by
  intro calls
  induction calls with
  | nil =>
    intro reqs M W _ hst k T
    simpa [runRL] using hst k T
  | cons d rest ih =>
    obtain ⟨ip, t⟩ := d
    intro reqs M W hpw hst k T
    obtain ⟨hd0, htl⟩ := List.pairwise_cons.mp hpw
    have hd : ∀ c ∈ rest, t ≤ c.2 := fun c hc => hd0 c hc
    have hwin_imp : t ≤ T → ∀ x : Int,
        inWindow W T x = true → decide (t - W < x) = true := by
      intro hT x hx
      simp only [inWindow, Bool.and_eq_true, decide_eq_true_eq] at hx
      simp only [decide_eq_true_eq]
      omega
    by_cases hC : M ≤ ((reqs ip).filter (fun x => decide (t - W < x))).length
    · -- reject branch: the key is purged, nothing is admitted
      have hb : (is_allowed ⟨reqs, M, W⟩ ip t).1 = false := by
        rw [is_allowed_reject ⟨reqs, M, W⟩ ip t hC]
      have hreq : (is_allowed ⟨reqs, M, W⟩ ip t).2
          = (⟨fun k' => if k' = ip then (reqs ip).filter (fun x => decide (t - W < x))
              else reqs k', M, W⟩ : RateLimiter) := by
        rw [is_allowed_reject ⟨reqs, M, W⟩ ip t hC]
      have hrun : (runRL ⟨reqs, M, W⟩ ((ip, t) :: rest)).2
          = (runRL (⟨fun k' => if k' = ip
              then (reqs ip).filter (fun x => decide (t - W < x))
              else reqs k', M, W⟩ : RateLimiter) rest).2 := by
        have h0 : (runRL ⟨reqs, M, W⟩ ((ip, t) :: rest)).2
            = (if (is_allowed ⟨reqs, M, W⟩ ip t).1
               then (ip, t) :: (runRL (is_allowed ⟨reqs, M, W⟩ ip t).2 rest).2
               else (runRL (is_allowed ⟨reqs, M, W⟩ ip t).2 rest).2) := rfl
        rw [h0, hb, hreq]
        simp
      have hstP : ∀ (k' : String) (T' : Int),
          ((if k' = ip then (reqs ip).filter (fun x => decide (t - W < x))
            else reqs k').countP (inWindow W T')) ≤ M := by
        intro k' T'
        by_cases hk' : k' = ip
        · rw [if_pos hk']
          exact Nat.le_trans (countP_filter_le _ _ _) (hst ip T')
        · rw [if_neg hk']
          exact hst k' T'
      have ihA := ih (fun k' => if k' = ip
          then (reqs ip).filter (fun x => decide (t - W < x))
          else reqs k') M W htl hstP k T
      rw [hrun]
      by_cases hk : k = ip
      · rw [hk]
        rw [hk, if_pos rfl] at ihA
        rcases Int.le_or_lt t T with hT | hT
        · rw [countP_filter_eq (inWindow W T) (fun x => decide (t - W < x))
            (reqs ip) (hwin_imp hT)]
          exact ihA
        · have hz : (runRL (⟨fun k' => if k' = ip
              then (reqs ip).filter (fun x => decide (t - W < x))
              else reqs k', M, W⟩ : RateLimiter) rest).2.countP
              (fun c => decide (c.1 = ip) && inWindow W T c.2) = 0 := by
            rw [List.countP_eq_zero]
            intro c hc
            have hct : t ≤ c.2 := hd c (mem_runRL rest _ c hc)
            simp only [inWindow, Bool.and_eq_true, decide_eq_true_eq, not_and]
            intro _ hcw
            omega
          rw [hz]
          simpa using hst ip T
      · rw [if_neg hk] at ihA
        exact ihA
    · -- admit branch: `t` is recorded and the call is admitted
      have hlt : ((reqs ip).filter (fun x => decide (t - W < x))).length < M :=
        Nat.not_le.mp hC
      have hb : (is_allowed ⟨reqs, M, W⟩ ip t).1 = true := by
        rw [is_allowed_accept ⟨reqs, M, W⟩ ip t hlt]
      have hreq : (is_allowed ⟨reqs, M, W⟩ ip t).2
          = (⟨fun k' => if k' = ip
              then (reqs ip).filter (fun x => decide (t - W < x)) ++ [t]
              else reqs k', M, W⟩ : RateLimiter) := by
        rw [is_allowed_accept ⟨reqs, M, W⟩ ip t hlt]
      have hrun : (runRL ⟨reqs, M, W⟩ ((ip, t) :: rest)).2
          = (ip, t) :: (runRL (⟨fun k' => if k' = ip
              then (reqs ip).filter (fun x => decide (t - W < x)) ++ [t]
              else reqs k', M, W⟩ : RateLimiter) rest).2 := by
        have h0 : (runRL ⟨reqs, M, W⟩ ((ip, t) :: rest)).2
            = (if (is_allowed ⟨reqs, M, W⟩ ip t).1
               then (ip, t) :: (runRL (is_allowed ⟨reqs, M, W⟩ ip t).2 rest).2
               else (runRL (is_allowed ⟨reqs, M, W⟩ ip t).2 rest).2) := rfl
        rw [h0, hb, hreq]
        simp
      have hstA : ∀ (k' : String) (T' : Int),
          ((if k' = ip then (reqs ip).filter (fun x => decide (t - W < x)) ++ [t]
            else reqs k').countP (inWindow W T')) ≤ M := by
        intro k' T'
        by_cases hk' : k' = ip
        · rw [if_pos hk', List.countP_append]
          have h1 := List.countP_le_length
            (p := inWindow W T')
            (l := (reqs ip).filter (fun x => decide (t - W < x)))
          have h2 : ([t].countP (inWindow W T')) ≤ 1 := by
            rw [List.countP_cons, List.countP_nil]
            split_ifs <;> omega
          omega
        · rw [if_neg hk']
          exact hst k' T'
      have ihA := ih (fun k' => if k' = ip
          then (reqs ip).filter (fun x => decide (t - W < x)) ++ [t]
          else reqs k') M W htl hstA k T
      rw [hrun, List.countP_cons]
      by_cases hk : k = ip
      · rw [hk]
        rw [hk, if_pos rfl, List.countP_append, List.countP_cons, List.countP_nil] at ihA
        rcases Int.le_or_lt t T with hT | hT
        · rw [countP_filter_eq (inWindow W T) (fun x => decide (t - W < x))
            (reqs ip) (hwin_imp hT)]
          have hpt : (if (decide ((ip, t).1 = ip) && inWindow W T (ip, t).2) = true
              then 1 else 0)
              = (if inWindow W T t = true then 1 else 0) := by
            simp
          rw [hpt]
          omega
        · have hw0 : inWindow W T t = false := by
            simp only [inWindow, Bool.and_eq_true, decide_eq_true_eq,
              Bool.and_eq_false_iff]
            right
            simp only [decide_eq_false_iff_not]
            omega
          have h1 : (if (decide ((ip, t).1 = ip) && inWindow W T (ip, t).2) = true
              then 1 else 0) = 0 := by
            simp [hw0]
          have h2 : (runRL (⟨fun k' => if k' = ip
              then (reqs ip).filter (fun x => decide (t - W < x)) ++ [t]
              else reqs k', M, W⟩ : RateLimiter) rest).2.countP
              (fun c => decide (c.1 = ip) && inWindow W T c.2) = 0 := by
            rw [List.countP_eq_zero]
            intro c hc
            have hct : t ≤ c.2 := hd c (mem_runRL rest _ c hc)
            simp only [inWindow, Bool.and_eq_true, decide_eq_true_eq, not_and]
            intro _ hcw
            omega
          rw [h1, h2]
          simpa using hst ip T
      · rw [if_neg hk] at ihA
        have hpt : (if (decide ((ip, t).1 = k) && inWindow W T (ip, t).2) = true
            then 1 else 0) = 0 := by
          simp [Ne.symm hk]
        rw [hpt]
        omega

/-- C1: starting from an empty table and making calls at nondecreasing
times, (a) for every key at most `max_requests` admitted calls carry
timestamps inside any one trailing window of `window_size`; (b) when the
purged window already holds `max_requests` timestamps the call returns
false and records nothing (the key's list stays the purged window); (c) when
fewer than `max_requests` timestamps survive the purge — the earliest
having aged out — the call is admitted and `now` is recorded. -/
theorem rate_limiter_sliding_window (rl0 : RateLimiter) (calls : List (String × Int))
    (hempty : ∀ k, rl0.requests k = [])
    (hmono : List.Pairwise (fun a b : String × Int => a.2 ≤ b.2) calls) :
    (∀ (k : String) (T : Int),
        (runRL rl0 calls).2.countP
            (fun c => decide (c.1 = k) && inWindow rl0.window_size T c.2)
          ≤ rl0.max_requests)
    ∧ (∀ (rl : RateLimiter) (ip : String) (now : Int),
        rl.max_requests
            ≤ ((rl.requests ip).filter (fun x => decide (now - rl.window_size < x))).length →
        (is_allowed rl ip now).1 = false
        ∧ (is_allowed rl ip now).2.requests ip
            = (rl.requests ip).filter (fun x => decide (now - rl.window_size < x)))
    ∧ (∀ (rl : RateLimiter) (ip : String) (now : Int),
        ((rl.requests ip).filter (fun x => decide (now - rl.window_size < x))).length
            < rl.max_requests →
        (is_allowed rl ip now).1 = true
        ∧ (is_allowed rl ip now).2.requests ip
            = (rl.requests ip).filter (fun x => decide (now - rl.window_size < x)) ++ [now]) := by
  obtain ⟨reqs0, M0, W0⟩ := rl0
  refine ⟨?_, ?_, ?_⟩
  · intro k T
    have he : ∀ k', reqs0 k' = [] := hempty
    have h := runRL_window_bound calls reqs0 M0 W0 hmono
      (fun k' T' => by rw [he k']; simp) k T
    rw [he k] at h
    simpa using h
  · intro rl ip now h
    rw [is_allowed_reject rl ip now h]
    exact ⟨rfl, by simp⟩
  · intro rl ip now h
    rw [is_allowed_accept rl ip now h]
    exact ⟨rfl, by simp⟩

/-- Witness for `rate_limiter_sliding_window`: a 2-per-60s limiter run on
three calls at times 0, 1, 2 admits at most 2 inside the window ending at 2. -/
theorem rate_limiter_sliding_window_witness :
    List.Pairwise (fun a b : String × Int => a.2 ≤ b.2) [("a", 0), ("a", 1), ("a", 2)]
    ∧ (runRL ⟨fun _ => [], 2, 60⟩ [("a", 0), ("a", 1), ("a", 2)]).2.countP
        (fun c => decide (c.1 = "a") && inWindow 60 2 c.2) ≤ 2 :=
  ⟨by decide,
   (rate_limiter_sliding_window ⟨fun _ => [], 2, 60⟩ [("a", 0), ("a", 1), ("a", 2)]
     (fun _ => rfl) (by decide)).1 "a" 2⟩

/-! ### Helper lemmas for string sanitization -/

lemma esc_chars (c : Char) (hc : isCtrlChar c = false) :
    ∀ d ∈ htmlEscapeChar c, isCtrlChar d = false ∧ d ∉ rawSpecials := by
  unfold htmlEscapeChar
  split_ifs with h1 h2 h3 h4 h5
  · intro d hd; fin_cases hd <;> exact ⟨by decide, by decide⟩
  · intro d hd; fin_cases hd <;> exact ⟨by decide, by decide⟩
  · intro d hd; fin_cases hd <;> exact ⟨by decide, by decide⟩
  · intro d hd; fin_cases hd <;> exact ⟨by decide, by decide⟩
  · intro d hd; fin_cases hd <;> exact ⟨by decide, by decide⟩
  · intro d hd
    have hdc : d = c := by simpa using hd
    subst hdc
    refine ⟨hc, fun hr => ?_⟩
    simp only [rawSpecials, List.mem_cons, List.not_mem_nil, or_false] at hr
    rcases hr with rfl | rfl | rfl | rfl
    · exact h2 rfl
    · exact h3 rfl
    · exact h4 rfl
    · exact h5 rfl

lemma ampOk_esc_append (c : Char) (t : List Char) :
    ampOk (htmlEscapeChar c ++ t) = ampOk t := by
  unfold htmlEscapeChar
  split_ifs with h1 h2 h3 h4 h5 <;>
    simp [ampOk, entityHead, List.isPrefixOf, h1]

lemma ampOk_flatMap : ∀ l : List Char, ampOk (l.flatMap htmlEscapeChar) = true
  | [] => rfl
  | c :: l => by
    rw [List.flatMap_cons, ampOk_esc_append]
    exact ampOk_flatMap l

lemma ampOk_tail {c : Char} {l : List Char} (h : ampOk (c :: l) = true) :
    ampOk l = true := by
  have := (Bool.and_eq_true _ _).mp h
  exact this.2

lemma ampOk_dropWhile (p : Char → Bool) :
    ∀ l : List Char, ampOk l = true → ampOk (l.dropWhile p) = true := by
  intro l
  induction l with
  | nil => intro h; exact h
  | cons c l ihl =>
    intro h
    rw [List.dropWhile_cons]
    split_ifs with hp
    · exact ihl (ampOk_tail h)
    · exact h

lemma prefix_of_append_spaces (e m w : List Char)
    (hw : ∀ c ∈ w, pyIsSpace c = true) (he : ∀ c ∈ e, pyIsSpace c = false)
    (h : e.isPrefixOf (m ++ w) = true) : e.isPrefixOf m = true := by
  rw [List.isPrefixOf_iff_prefix] at h ⊢
  rcases List.prefix_or_prefix_of_prefix h (List.prefix_append m w) with hem | hme
  · exact hem
  · obtain ⟨r, hr⟩ := hme
    cases r with
    | nil =>
      rw [← hr, List.append_nil]
    | cons a r =>
      exfalso
      have ha_e : a ∈ e := by rw [← hr]; exact List.mem_append_right m (List.mem_cons_self a r)
      obtain ⟨t2, ht2⟩ := h
      rw [← hr, List.append_assoc] at ht2
      have hwr : w = (a :: r) ++ t2 := List.append_cancel_left ht2.symm
      have ha_w : a ∈ w := by rw [hwr]; exact List.mem_append_left t2 (List.mem_cons_self a r)
      have := hw a ha_w
      rw [he a ha_e] at this
      exact Bool.false_ne_true this

lemma entityHead_of_append_spaces (m w : List Char)
    (hw : ∀ c ∈ w, pyIsSpace c = true) (h : entityHead (m ++ w) = true) :
    entityHead m = true := by
  unfold entityHead at h ⊢
  simp only [Bool.or_eq_true] at h ⊢
  rcases h with ((((h | h) | h) | h) | h)
  · exact Or.inl (Or.inl (Or.inl (Or.inl
      (prefix_of_append_spaces _ m w hw (by decide) h))))
  · exact Or.inl (Or.inl (Or.inl (Or.inr
      (prefix_of_append_spaces _ m w hw (by decide) h))))
  · exact Or.inl (Or.inl (Or.inr
      (prefix_of_append_spaces _ m w hw (by decide) h)))
  · exact Or.inl (Or.inr
      (prefix_of_append_spaces _ m w hw (by decide) h))
  · exact Or.inr (prefix_of_append_spaces _ m w hw (by decide) h)

lemma ampOk_of_append_spaces :
    ∀ (m w : List Char), (∀ c ∈ w, pyIsSpace c = true) →
      ampOk (m ++ w) = true → ampOk m = true := by
  intro m
  induction m with
  | nil => intro w _ _; rfl
  | cons c m ihm =>
    intro w hw h
    rw [List.cons_append] at h
    have h1 := (Bool.and_eq_true _ _).mp h
    rw [show ampOk (c :: m) = ((if c = '&' then entityHead m else true) && ampOk m)
      from rfl]
    refine (Bool.and_eq_true _ _).mpr ⟨?_, ihm w hw h1.2⟩
    split_ifs with hc
    · have h2 := h1.1
      rw [if_pos hc] at h2
      exact entityHead_of_append_spaces m w hw h2
    · rfl

lemma rdrop_split (p : Char → Bool) (d : List Char) :
    d = (d.reverse.dropWhile p).reverse ++ (d.reverse.takeWhile p).reverse := by
  conv_rhs =>
    rw [← List.reverse_append, List.takeWhile_append_dropWhile, List.reverse_reverse]

lemma ampOk_pyStrip (l : List Char) (h : ampOk l = true) :
    ampOk (pyStrip l) = true := by
  unfold pyStrip
  have hd : ampOk (l.dropWhile pyIsSpace) = true := ampOk_dropWhile _ l h
  have hsplit := rdrop_split pyIsSpace (l.dropWhile pyIsSpace)
  have hw : ∀ c ∈ ((l.dropWhile pyIsSpace).reverse.takeWhile pyIsSpace).reverse,
      pyIsSpace c = true := by
    intro c hc
    rw [List.mem_reverse] at hc
    exact List.mem_takeWhile_imp hc
  refine ampOk_of_append_spaces _ _ hw ?_
  rw [← hsplit]
  exact hd

lemma mem_pyStrip {c : Char} {l : List Char} (hc : c ∈ pyStrip l) : c ∈ l := by
  unfold pyStrip at hc
  rw [List.mem_reverse] at hc
  have h1 := (List.dropWhile_sublist (l := (l.dropWhile pyIsSpace).reverse)
    (p := pyIsSpace)).mem hc
  rw [List.mem_reverse] at h1
  exact (List.dropWhile_sublist (l := l) (p := pyIsSpace)).mem h1

/-- C6: a string longer than `maxLength` is rejected with the too-long
error; otherwise `sanitize_string` succeeds and its result contains no
control character, no raw occurrence of the four bracket/quote characters,
and every ampersand in it starts a complete HTML entity (no unescaped
ampersand). -/
theorem sanitize_string_safe :
    (∀ (S : String) (maxLength : Nat), maxLength < S.length →
      sanitize_string S maxLength
        = .error ("Input too long. Maximum length: " ++ toString maxLength))
    ∧ (∀ (S : String) (maxLength : Nat), S.length ≤ maxLength →
      ∃ out, sanitize_string S maxLength = .ok out
        ∧ (∀ c ∈ out.data, isCtrlChar c = false)
        ∧ (∀ c ∈ out.data, c ∉ rawSpecials)
        ∧ ampOk out.data = true) := by
  constructor
  · intro S maxLength h
    unfold sanitize_string
    rw [if_pos h]
  · intro S maxLength h
    refine ⟨⟨pyStrip ((S.data.filter (fun c => ! isCtrlChar c)).flatMap htmlEscapeChar)⟩,
      ?_, ?_, ?_, ?_⟩
    · unfold sanitize_string
      rw [if_neg (Nat.not_lt.mpr h)]
    · intro c hc
      have hc' : c ∈ (S.data.filter (fun c => ! isCtrlChar c)).flatMap htmlEscapeChar :=
        mem_pyStrip hc
      rw [List.mem_flatMap] at hc'
      obtain ⟨a, ha, hca⟩ := hc'
      have hactrl : isCtrlChar a = false := by
        simpa using (List.mem_filter.mp ha).2
      exact (esc_chars a hactrl c hca).1
    · intro c hc
      have hc' : c ∈ (S.data.filter (fun c => ! isCtrlChar c)).flatMap htmlEscapeChar :=
        mem_pyStrip hc
      rw [List.mem_flatMap] at hc'
      obtain ⟨a, ha, hca⟩ := hc'
      have hactrl : isCtrlChar a = false := by
        simpa using (List.mem_filter.mp ha).2
      exact (esc_chars a hactrl c hca).2
    · exact ampOk_pyStrip _ (ampOk_flatMap _)

/-- Witness for `sanitize_string_safe` at the in-bound input `"a<b"`. -/
theorem sanitize_string_safe_witness :
    ("a<b".length ≤ 1000)
    ∧ ∃ out, sanitize_string "a<b" 1000 = .ok out
        ∧ (∀ c ∈ out.data, isCtrlChar c = false)
        ∧ (∀ c ∈ out.data, c ∉ rawSpecials)
        ∧ ampOk out.data = true :=
  ⟨by decide, sanitize_string_safe.2 "a<b" 1000 (by decide)⟩

/-! ### Helper lemmas for recursive sanitization -/

lemma deepNest_ok : ∀ n : Nat, sanitize_input (deepNest n) = .ok (deepNest n) := by
  intro n
  induction n with
  | zero => rfl
  | succ n ihn =>
    show sanitize_input (.arr [deepNest n]) = .ok (.arr [deepNest n])
    simp only [sanitize_input, sanitizeArrItems, ihn]
    rfl

mutual

lemma strip_sanitize : ∀ (v w : Value),
    sanitize_input v = .ok w → stripStrings w = stripStrings v
  | .str s, w, h => by
    have h' : (sanitize_string s 1000).map Value.str = .ok w := h
    cases hs : sanitize_string s 1000 with
    | error e => rw [hs] at h'; exact absurd h' (by simp [Except.map])
    | ok out =>
      rw [hs] at h'
      have hw : w = .str out := by
        simpa [Except.map] using h'.symm
      subst hw
      rfl
  | .num q, w, h => by
    have hw : w = .num q := by simpa using (show Except.ok (Value.num q) = .ok w from h).symm
    subst hw; rfl
  | .boolean b, w, h => by
    have hw : w = .boolean b := by
      simpa using (show Except.ok (Value.boolean b) = .ok w from h).symm
    subst hw; rfl
  | .null, w, h => by
    have hw : w = .null := by simpa using (show Except.ok Value.null = .ok w from h).symm
    subst hw; rfl
  | .dict es, w, h => by
    have h' : (sanitizeDictEntries es).map Value.dict = .ok w := h
    cases hs : sanitizeDictEntries es with
    | error e => rw [hs] at h'; exact absurd h' (by simp [Except.map])
    | ok es' =>
      rw [hs] at h'
      have hw : w = .dict es' := by simpa [Except.map] using h'.symm
      subst hw
      show Value.dict (stripStringsEntries es') = Value.dict (stripStringsEntries es)
      rw [strip_sanitize_entries es es' hs]
  | .arr xs, w, h => by
    have h' : (sanitizeArrItems xs).map Value.arr = .ok w := h
    cases hs : sanitizeArrItems xs with
    | error e => rw [hs] at h'; exact absurd h' (by simp [Except.map])
    | ok xs' =>
      rw [hs] at h'
      have hw : w = .arr xs' := by simpa [Except.map] using h'.symm
      subst hw
      show Value.arr (stripStringsItems xs') = Value.arr (stripStringsItems xs)
      rw [strip_sanitize_items xs xs' hs]

lemma strip_sanitize_entries : ∀ (es es' : List (String × Value)),
    sanitizeDictEntries es = .ok es' → stripStringsEntries es' = stripStringsEntries es
  | [], es', h => by
    have hw : es' = [] := by simpa using (show Except.ok ([] : List (String × Value)) = .ok es' from h).symm
    subst hw; rfl
  | (k, v) :: rest, es', h => by
    have h' : (do
        let v' ← sanitize_input v
        let rest' ← sanitizeDictEntries rest
        Except.ok ((k, v') :: rest')) = Except.ok es' := h
    cases hv : sanitize_input v with
    | error e =>
      rw [hv] at h'
      exact Except.noConfusion (show Except.error e = Except.ok es' from h')
    | ok v' =>
      cases hr : sanitizeDictEntries rest with
      | error e =>
        rw [hv, hr] at h'
        exact Except.noConfusion (show Except.error e = Except.ok es' from h')
      | ok rest' =>
        rw [hv, hr] at h'
        have hw : es' = (k, v') :: rest' := by
          have h2 : Except.ok ((k, v') :: rest') = Except.ok es' := h'
          simpa using h2.symm
        subst hw
        show (k, stripStrings v') :: stripStringsEntries rest'
            = (k, stripStrings v) :: stripStringsEntries rest
        rw [strip_sanitize v v' hv, strip_sanitize_entries rest rest' hr]

lemma strip_sanitize_items : ∀ (xs xs' : List Value),
    sanitizeArrItems xs = .ok xs' → stripStringsItems xs' = stripStringsItems xs
  | [], xs', h => by
    have hw : xs' = [] := by simpa using (show Except.ok ([] : List Value) = .ok xs' from h).symm
    subst hw; rfl
  | v :: rest, xs', h => by
    have h' : (do
        let v' ← sanitize_input v
        let rest' ← sanitizeArrItems rest
        Except.ok (v' :: rest')) = Except.ok xs' := h
    cases hv : sanitize_input v with
    | error e =>
      rw [hv] at h'
      exact Except.noConfusion (show Except.error e = Except.ok xs' from h')
    | ok v' =>
      cases hr : sanitizeArrItems rest with
      | error e =>
        rw [hv, hr] at h'
        exact Except.noConfusion (show Except.error e = Except.ok xs' from h')
      | ok rest' =>
        rw [hv, hr] at h'
        have hw : xs' = v' :: rest' := by
          have h2 : Except.ok (v' :: rest') = Except.ok xs' := h'
          simpa using h2.symm
        subst hw
        show stripStrings v' :: stripStringsItems rest'
            = stripStrings v :: stripStringsItems rest
        rw [strip_sanitize v v' hv, strip_sanitize_items rest rest' hr]

end

/-- C9 fails on the code: `sanitize_input` imposes no depth cap — a
sequence nested 70 levels deep (beyond the claimed limit of 64) is
sanitized successfully instead of failing with a too-deep error. -/
theorem sanitize_deep_no_cap_counterexample :
    sanitize_input (deepNest 70) = .ok (deepNest 70) :=
  deepNest_ok 70

/-- C9 amended: `sanitize_input` terminates on every (finite, acyclic)
input, applies `sanitize_string` to strings, preserves the structure and
the non-string values of whatever it accepts, and has no recursion-depth
cap: nests of arbitrary depth are processed without a too-deep error. -/
theorem sanitize_input_structure :
    (∀ s : String, sanitize_input (.str s) = (sanitize_string s 1000).map Value.str)
    ∧ (∀ (v w : Value), sanitize_input v = .ok w → stripStrings w = stripStrings v)
    ∧ (∀ n : Nat, sanitize_input (deepNest n) = .ok (deepNest n)) :=
  ⟨fun _ => rfl, strip_sanitize, deepNest_ok⟩

/-- Witness for `sanitize_input_structure` on a small mixed structure. -/
theorem sanitize_input_structure_witness :
    (sanitize_input (.arr [.str "a<b", .null]) = .ok (.arr [.str "a&lt;b", .null]))
    ∧ stripStrings (.arr [.str "a&lt;b", .null]) = stripStrings (.arr [.str "a<b", .null]) :=
  ⟨rfl, sanitize_input_structure.2.1 _ _ rfl⟩

end RLFutures
